import Mathlib

/-!
Verification of the Mercator Origins V1 telemetry protocol decoder
(src/decoders/mercator-origins-v1/pd.py) against its specification.

The decoder has two parts:
* a frame assembler (method `decode`): consumes one byte event at a time,
  accumulates bytes in a buffer, fixes the expected frame length from the
  first two buffered bytes (little-endian 16-bit), and hands the full
  buffer to the message parser once the buffer reaches that length;
* a message parser (method `decode_message`): interprets a buffer of at
  least 114 bytes as 57 little-endian 16-bit words and emits one output
  event per decoded field, a checksum OK/ERROR event, and a summary event.

Bytes are modelled as natural numbers (the Python `bytes` type guarantees
values in 0..255), buffers as `List Nat`, sample numbers (timestamps) as
`Nat`, and each `self.put(ss, es, ..., [fid, [text]])` call as one
`FieldEvent` value in the order the calls occur.
-/

/-- Mutable state of the frame assembler: mirrors the three fields set by
`Decoder.reset` in pd.py (`self.buffer`, `self.expected_length`,
`self.start_sample`). -/
structure AssemblyState where
  buffer : List Nat
  expected_length : Option Nat
  start_sample : Option Nat
deriving DecidableEq, Repr

/-- The state produced by `Decoder.reset`: empty buffer, no expected
length, no start sample.  Also the initial state (`__init__` calls
`reset`). -/
def resetState : AssemblyState :=
  { buffer := [], expected_length := none, start_sample := none }

/-- A completed frame as handed to `decode_message`: the full buffer plus
the sample range `[start_sample, samplenum]`. -/
structure Frame where
  data : List Nat
  ss : Nat
  es : Nat
deriving DecidableEq, Repr

/-- One output event, i.e. one `self.put(ss, es, self.out_ann,
[fid, [txt]])` call in pd.py. -/
structure FieldEvent where
  ss : Nat
  es : Nat
  fid : Nat
  txt : String
deriving DecidableEq, Repr

/-- `struct.unpack("<H", buffer[:2])[0]` on a buffer with at least two
bytes: the little-endian 16-bit value of the first two bytes; `none` if
fewer than two bytes are present. -/
def expectedFromBuf : List Nat → Option Nat
  | b0 :: b1 :: _ => some (b0 + 256 * b1)
  | _ => none

/-- One iteration of the `while True` loop of `Decoder.decode` for a byte
event `(byte, samplenum)`: record the start sample if unset, append the
byte, fix the expected length from the first two bytes once the buffer
holds at least two, and complete a frame (resetting the state) once
`self.expected_length` is truthy (not `None` and nonzero) and the buffer
has reached it. -/
def feed (st : AssemblyState) (byte : Nat) (samplenum : Nat) :
    AssemblyState × Option Frame :=
  let start := st.start_sample.getD samplenum
  let buf := st.buffer ++ [byte]
  let exp : Option Nat :=
    if st.expected_length = none ∧ 2 ≤ buf.length then expectedFromBuf buf
    else st.expected_length
  match exp with
  | some e =>
    if e ≠ 0 ∧ e ≤ buf.length then
      (resetState, some ⟨buf, start, samplenum⟩)
    else ({ buffer := buf, expected_length := some e, start_sample := some start }, none)
  | none => ({ buffer := buf, expected_length := none, start_sample := some start }, none)

/-- Run the assembler over a finite list of byte events
`(byte, samplenum)`, collecting the completed frames in order. -/
def feedAll : AssemblyState → List (Nat × Nat) → AssemblyState × List Frame
  | st, [] => (st, [])
  | st, (b, t) :: rest =>
    match feed st b t with
    | (st1, fr) =>
      match feedAll st1 rest with
      | (st2, frames) => (st2, fr.toList ++ frames)

/-- The accumulation buffer as it stands right after the append
`self.buffer += bytes([byte_val])` in one `feed` step: the completed
frame data if the step completed a frame, else the new state buffer. -/
def bufferAfterAppend (r : AssemblyState × Option Frame) : List Nat :=
  match r.2 with
  | some fr => fr.data
  | none => r.1.buffer

/-- The start sample in effect right after the start-sample update in one
`feed` step: the completed frame start if the step completed a frame,
else the new state start sample. -/
def startAfterAppend (r : AssemblyState × Option Frame) : Option Nat :=
  match r.2 with
  | some fr => some fr.ss
  | none => r.1.start_sample

/-- Word `i` of a byte buffer: `struct.unpack("<57H", data[:114])[i]`,
i.e. the little-endian 16-bit value of bytes `2*i` and `2*i+1`. -/
def wordAt (data : List Nat) (i : Nat) : Nat :=
  data.getD (2 * i) 0 + 256 * data.getD (2 * i + 1) 0

/-- `Decoder.calc_checksum`: XOR-fold of the consecutive little-endian
16-bit words of `data` (one word per full byte pair), starting from 0. -/
def calc_checksum (data : List Nat) : Nat :=
  (List.range (data.length / 2)).foldl (fun checksum i => checksum ^^^ wordAt data i) 0

/-- `received_checksum = words[56]` in `decode_message`. -/
def received_checksum (data : List Nat) : Nat := wordAt data 56

/-- `calculated_checksum = self.calc_checksum(data[:112])` in
`decode_message`. -/
def calculated_checksum (data : List Nat) : Nat := calc_checksum (data.take 112)

/-- `checksum_valid = received_checksum == calculated_checksum` in
`decode_message`. -/
def checksum_valid (data : List Nat) : Bool :=
  received_checksum data == calculated_checksum data

/-- `Decoder.decode_float_from_words`: `struct.pack("<HH", w1, w2)`
followed by `struct.unpack("<f", ...)` reinterprets the four bytes
`w1 mod 256, w1 div 256, w2 mod 256, w2 div 256` as a little-endian
32-bit pattern.  We model the resulting IEEE-754 bit pattern; its value
is given by `float32_value`. -/
def decode_float_from_words (word1 word2 : Nat) : Nat :=
  word1 + 65536 * word2

/-- A list of bytes read as a little-endian base-256 integer. -/
def bytesLE (bs : List Nat) : Nat :=
  bs.foldr (fun b acc => b + 256 * acc) 0

/-- Modelled from the spec: the exact value of an IEEE-754 single
precision bit pattern (the semantics of `struct.unpack("<f", ...)`,
which is external library code, not part of this repository):
sign bit 31, biased exponent bits 23..30, fraction bits 0..22;
`none` for the non-finite encodings (exponent 255). -/
def float32_value (bits : Nat) : Option ℚ :=
  let s : Nat := bits / 2 ^ 31 % 2
  let e : Nat := bits / 2 ^ 23 % 256
  let m : Nat := bits % 2 ^ 23
  if e = 255 then none
  else
    let mag : ℚ := if e = 0 then (2 * m : ℚ) / 2 ^ 150 else ((2 ^ 23 + m : ℚ)) * 2 ^ e / 2 ^ 150
    some (if s = 1 then -mag else mag)

/-- Pad a string on the left with zeros to the given width. -/
def padZeros (width : Nat) (s : String) : String :=
  if s.length < width then String.mk (List.replicate (width - s.length) '0') ++ s
  else s

/-- Python fixed-point rendering of `w / scale` with `digits` decimal
places (`scale = 10 ^ digits`), as produced by format specs `.1f`, `.2f`,
`.3f` on `words[i] / 10.0` etc.  For `w < 2 ^ 16` the double nearest to
`w / scale` rounds back to exactly `digits` decimal digits of `w / scale`
(the spacing of doubles near these values is far below `scale⁻¹ / 2` and
a rounding tie would require a non-dyadic value), so the rendered text is
the exact quotient and zero-padded remainder. -/
def fmtFixed (w scale digits : Nat) : String :=
  toString (w / scale) ++ "." ++ padZeros digits (toString (w % scale))

/-- Rendering of a finite IEEE-754 single value (given as its bit
pattern) with Python format spec `.3f`: the float32 is converted exactly
to double and correctly rounded to three decimal places, ties to even.
The magnitude of a finite float32 with fraction `m` and biased exponent
`e` is exactly `v / 2 ^ 150` with `v` as below. -/
def fmtFloat3 (bits : Nat) : String :=
  let s := bits / 2 ^ 31 % 2
  let e := bits / 2 ^ 23 % 256
  let m := bits % 2 ^ 23
  let sign := if s = 1 then "-" else ""
  if e = 255 then
    if m = 0 then sign ++ "inf" else "nan"
  else
    let v := if e = 0 then 2 * m else (2 ^ 23 + m) * 2 ^ e
    let num := 1000 * v
    let den : Nat := 2 ^ 150
    let q := num / den
    let r := num % den
    let n := if 2 * r < den then q
             else if den < 2 * r then q + 1
             else if q % 2 = 0 then q else q + 1
    sign ++ toString (n / 1000) ++ "." ++ padZeros 3 (toString (n % 1000))

/-- One hexadecimal digit, uppercase (as in Python format spec `X`). -/
def hexDigit (n : Nat) : Char :=
  if n < 10 then Char.ofNat (48 + n) else Char.ofNat (55 + n)

/-- Python format spec `04X` for values below `2 ^ 16` (the only values
formatted this way in pd.py: 16-bit words and their XOR-folds): four
uppercase hexadecimal digits, zero-padded. -/
def hex4 (n : Nat) : String :=
  String.mk [hexDigit (n / 4096 % 16), hexDigit (n / 256 % 16),
             hexDigit (n / 16 % 16), hexDigit (n % 16)]

/-- `chr(w & 0xFF) + chr((w >> 8) & 0xFF)`: the two-character ASCII pair
of a 16-bit word, low byte first (display label, waymarker label,
direction metric label in pd.py). -/
def chr2 (w : Nat) : String :=
  String.mk [Char.ofNat (w &&& 255), Char.ofNat ((w >>> 8) &&& 255)]

/-- The four-character target code of `decode_message`:
`chr(words[19] & 0xFF) + chr((words[19] >> 8) & 0xFF) +
 chr(words[20] & 0xFF) + chr((words[20] >> 8) & 0xFF)`. -/
def targetCode (wa wb : Nat) : String :=
  String.mk [Char.ofNat (wa &&& 255), Char.ofNat ((wa >>> 8) &&& 255),
             Char.ofNat (wb &&& 255), Char.ofNat ((wb >>> 8) &&& 255)]

/-- Python `str` of a list of integers, as interpolated by
`f"Sensor Timing: {sensor_timings}"`. -/
def listRepr (xs : List Nat) : String :=
  "[" ++ String.intercalate ", " (xs.map toString) ++ "]"

/-- `Decoder.decode_message(data, ss, es)`: no output for buffers of
fewer than 114 bytes; otherwise one event per `self.put` call, in source
order.  The field ids are the indices into the `annotations` tuple used
by each call. -/
def decode_message (data : List Nat) (ss es : Nat) : List FieldEvent :=
  if data.length < 114 then []
  else
    [ ⟨ss, es, 1, "Length: " ++ toString (wordAt data 0) ++ " bytes"⟩,
      ⟨ss, es, 2, "Message Type: " ++ toString (wordAt data 1)⟩,
      ⟨ss, es, 3, "Depth: " ++ fmtFixed (wordAt data 2) 10 1 ++ "m"⟩,
      ⟨ss, es, 4, "Water Pressure: " ++ fmtFixed (wordAt data 3) 100 2⟩,
      ⟨ss, es, 5, "Water Temp: " ++ fmtFixed (wordAt data 4) 10 1 ++ "°C"⟩,
      ⟨ss, es, 6, "Enclosure Temp: " ++ fmtFixed (wordAt data 5) 10 1 ++ "°C"⟩,
      ⟨ss, es, 7, "Humidity: " ++ fmtFixed (wordAt data 6) 10 1 ++ "%"⟩,
      ⟨ss, es, 8, "Air Pressure: " ++ fmtFixed (wordAt data 7) 10 1⟩,
      ⟨ss, es, 9, "Heading: " ++ fmtFixed (wordAt data 8) 10 1 ++ "°"⟩,
      ⟨ss, es, 10, "Heading to Target: " ++ fmtFixed (wordAt data 9) 10 1 ++ "°"⟩,
      ⟨ss, es, 11, "Distance to Target: " ++ fmtFixed (wordAt data 10) 10 1 ++ "m"⟩,
      ⟨ss, es, 12, "Journey Course: " ++ fmtFixed (wordAt data 11) 10 1 ++ "°"⟩,
      ⟨ss, es, 13, "Journey Distance: " ++ fmtFixed (wordAt data 12) 100 2 ++ "m"⟩,
      ⟨ss, es, 14, "Display: \"" ++ chr2 (wordAt data 13) ++ "\""⟩,
      ⟨ss, es, 15, "Uptime: " ++ toString (wordAt data 14) ++ " min"⟩,
      ⟨ss, es, 16, "User Action: " ++ toString (wordAt data 15)⟩,
      ⟨ss, es, 17, "Bad Checksums: " ++ toString (wordAt data 16)⟩,
      ⟨ss, es, 18, "USB Voltage: " ++ fmtFixed (wordAt data 17) 1000 3 ++ "V"⟩,
      ⟨ss, es, 19, "USB Current: " ++ fmtFixed (wordAt data 18) 100 2 ++ "A"⟩,
      ⟨ss, es, 20, "Target: \"" ++ targetCode (wordAt data 19) (wordAt data 20) ++ "\""⟩,
      ⟨ss, es, 21, "Sensor Timing: " ++ listRepr [wordAt data 21, wordAt data 22,
        wordAt data 23, wordAt data 24, wordAt data 25, wordAt data 26]⟩,
      ⟨ss, es, 22, "Accel: X=" ++ fmtFloat3 (decode_float_from_words (wordAt data 27) (wordAt data 28))
        ++ ", Y=" ++ fmtFloat3 (decode_float_from_words (wordAt data 29) (wordAt data 30))
        ++ ", Z=" ++ fmtFloat3 (decode_float_from_words (wordAt data 31) (wordAt data 32))⟩,
      ⟨ss, es, 23, "Gyro: X=" ++ fmtFloat3 (decode_float_from_words (wordAt data 33) (wordAt data 34))
        ++ ", Y=" ++ fmtFloat3 (decode_float_from_words (wordAt data 35) (wordAt data 36))
        ++ ", Z=" ++ fmtFloat3 (decode_float_from_words (wordAt data 37) (wordAt data 38))⟩,
      ⟨ss, es, 24, "Lin Accel: X=" ++ fmtFloat3 (decode_float_from_words (wordAt data 39) (wordAt data 40))
        ++ ", Y=" ++ fmtFloat3 (decode_float_from_words (wordAt data 41) (wordAt data 42))
        ++ ", Z=" ++ fmtFloat3 (decode_float_from_words (wordAt data 43) (wordAt data 44))⟩,
      ⟨ss, es, 25, "Rot Accel: X=" ++ fmtFloat3 (decode_float_from_words (wordAt data 45) (wordAt data 46))
        ++ ", Y=" ++ fmtFloat3 (decode_float_from_words (wordAt data 47) (wordAt data 48))
        ++ ", Z=" ++ fmtFloat3 (decode_float_from_words (wordAt data 49) (wordAt data 50))⟩,
      ⟨ss, es, 26, "Good Checksums: " ++ toString (wordAt data 51)⟩,
      ⟨ss, es, 27, "Waymarker: " ++ toString (wordAt data 52)⟩,
      ⟨ss, es, 28, "Waymarker Label: \"" ++ chr2 (wordAt data 53) ++ "\""⟩,
      ⟨ss, es, 29, "Direction Metric: \"" ++ chr2 (wordAt data 54) ++ "\""⟩,
      ⟨ss, es, 30, "Flags: 0x" ++ hex4 (wordAt data 55)⟩ ]
    ++ [ if checksum_valid data then
           ⟨ss, es, 32, "Checksum OK: 0x" ++ hex4 (received_checksum data)⟩
         else
           ⟨ss, es, 33, "Checksum ERROR: got 0x" ++ hex4 (received_checksum data)
             ++ ", expected 0x" ++ hex4 (calculated_checksum data)⟩ ]
    ++ [ ⟨ss, es, 0, "Mercator Origins V1 Message (Length: " ++ toString (wordAt data 0)
           ++ ", Type: " ++ toString (wordAt data 1) ++ ", Checksum: "
           ++ (if checksum_valid data then "OK" else "ERROR") ++ ")"⟩ ]

/-- The end-to-end example frame of the spec: word 0 = 114 (length),
word 1 = 1 (message type), word 2 = 150 (depth 15.0 m), all other words
zero except word 56 = 114 XOR 1 XOR 150 = 229, the XOR-fold of words
0..55. -/
def mercExample : List Nat :=
  [114, 0, 1, 0, 150, 0] ++ List.replicate 106 0 ++ [229, 0]

/-! ## Helper lemmas -/

lemma foldl_xor_congr (l : List Nat) (f g : Nat → Nat) (h : ∀ i ∈ l, f i = g i) :
    ∀ a, l.foldl (fun acc i => acc ^^^ f i) a = l.foldl (fun acc i => acc ^^^ g i) a := by
  induction l with
  | nil => intro a; rfl
  | cons x xs ih =>
    intro a
    simp only [List.foldl_cons]
    rw [h x (by simp)]
    exact ih (fun i hi => h i (by simp [hi])) _

lemma getD_take (data : List Nat) (n j : Nat) (hj : j < n) :
    (data.take n).getD j 0 = data.getD j 0 := by
  rw [List.getD_eq_getElem?_getD, List.getD_eq_getElem?_getD]
  congr 1
  simp [List.getElem?_take, hj]

lemma wordAt_take_112 (data : List Nat) (i : Nat) (hi : i < 56) :
    wordAt (data.take 112) i = wordAt data i := by
  unfold wordAt
  rw [getD_take _ _ _ (by omega), getD_take _ _ _ (by omega)]

lemma calc_checksum_take_112 (data : List Nat) (h : 112 ≤ data.length) :
    calc_checksum (data.take 112)
      = (List.range 56).foldl (fun checksum i => checksum ^^^ wordAt data i) 0 := by
  have hlen : (data.take 112).length = 112 := by
    rw [List.length_take]; omega
  unfold calc_checksum
  rw [hlen]
  norm_num
  refine foldl_xor_congr _ _ _ (fun i hi => ?_) 0
  rw [List.mem_range] at hi
  exact wordAt_take_112 data i hi

lemma and255_eq_mod (w : Nat) : w &&& 255 = w % 256 := by
  apply Nat.eq_of_testBit_eq
  intro i
  rw [Nat.testBit_and, show (256 : Nat) = 2 ^ 8 by norm_num, Nat.testBit_mod_two_pow]
  rcases Nat.lt_or_ge i 8 with h | h
  · have h255 : Nat.testBit 255 i = true := by
      interval_cases i <;> decide
    simp [h255, h]
  · have h255 : Nat.testBit 255 i = false := by
      apply Nat.testBit_eq_false_of_lt
      calc (255 : Nat) < 2 ^ 8 := by norm_num
      _ ≤ 2 ^ i := Nat.pow_le_pow_right (by norm_num) h
    simp [h255, Nat.not_lt.mpr h]

lemma shift8_and255 (w : Nat) : (w >>> 8) &&& 255 = w / 256 % 256 := by
  rw [and255_eq_mod, Nat.shiftRight_eq_div_pow]

/-! ## Claim theorems -/

/-- C4: for every input buffer shorter than 114 bytes handed to the
message parser, the parser performs no decoding and emits no output
events of any kind (in the embedding `decode_message` is a total
function, so no error is raised either). -/
theorem short_frame_no_output (data : List Nat) (ss es : Nat) (h : data.length < 114) :
    decode_message data ss es = [] := by
  unfold decode_message
  rw [if_pos h]

theorem short_frame_no_output_witness :
    decode_message [1, 2, 3] 0 2 = [] :=
  short_frame_no_output [1, 2, 3] 0 2 (by decide)

/-- C2: for every frame of at least 114 bytes, the checksum used by the
parser is the XOR-fold, starting from zero, of the 56 little-endian
16-bit words covering exactly the first 112 bytes; the received checksum
is word 56; and the validity flag holds iff the two agree. -/
theorem checksum_over_first_112 (data : List Nat) (h : 114 ≤ data.length) :
    calculated_checksum data
        = (List.range 56).foldl (fun checksum i => checksum ^^^ wordAt data i) 0
      ∧ received_checksum data = wordAt data 56
      ∧ (checksum_valid data = true ↔
          wordAt data 56
            = (List.range 56).foldl (fun checksum i => checksum ^^^ wordAt data i) 0) := by
  have hc := calc_checksum_take_112 data (by omega)
  refine ⟨hc, rfl, ?_⟩
  simp [checksum_valid, received_checksum, calculated_checksum, hc]

theorem checksum_over_first_112_witness :
    calculated_checksum (List.replicate 114 0)
        = (List.range 56).foldl
            (fun checksum i => checksum ^^^ wordAt (List.replicate 114 0) i) 0
      ∧ received_checksum (List.replicate 114 0) = wordAt (List.replicate 114 0) 56
      ∧ (checksum_valid (List.replicate 114 0) = true ↔
          wordAt (List.replicate 114 0) 56
            = (List.range 56).foldl
                (fun checksum i => checksum ^^^ wordAt (List.replicate 114 0) i) 0) :=
  checksum_over_first_112 (List.replicate 114 0) (by decide)

/-- C7: for every 16-bit word decoded as an ASCII pair, character 1 is
the low byte and character 2 the high byte; word 0x6261 decodes to "ab";
and the target code is the ASCII pair of word 19 followed by the ASCII
pair of word 20. -/
theorem ascii_pair_decode (w wa wb : Nat) :
    (chr2 w).data = [Char.ofNat (w % 256), Char.ofNat (w / 256 % 256)]
      ∧ chr2 0x6261 = "ab"
      ∧ targetCode wa wb = chr2 wa ++ chr2 wb := by
  refine ⟨?_, by decide, ?_⟩
  · unfold chr2
    rw [shift8_and255, and255_eq_mod]
  · rfl

/-- C8: the float codec concatenates the two words as four bytes in
little-endian order (so the 32-bit pattern is `w1 + 0x10000 * w2`, the
little-endian reading of bytes `w1 lo, w1 hi, w2 lo, w2 hi`), and the
word pair (0x0000, 0x3F80) decodes to exactly 1.0 under the IEEE-754
single-precision interpretation. -/
theorem float_codec_le_layout (w1 w2 : Nat) (h1 : w1 < 65536) (h2 : w2 < 65536) :
    decode_float_from_words w1 w2
        = bytesLE [w1 % 256, w1 / 256, w2 % 256, w2 / 256]
      ∧ float32_value (decode_float_from_words 0 0x3F80) = some 1 := by
  constructor
  · unfold decode_float_from_words bytesLE
    simp only [List.foldr]
    omega
  · norm_num [decode_float_from_words, float32_value]

theorem float_codec_le_layout_witness :
    decode_float_from_words 0x1234 0xABCD
        = bytesLE [0x1234 % 256, 0x1234 / 256, 0xABCD % 256, 0xABCD / 256]
      ∧ float32_value (decode_float_from_words 0 0x3F80) = some 1 :=
  float_codec_le_layout 0x1234 0xABCD (by decide) (by decide)

/-- C5: for every frame of at least 114 bytes, the parser emits events
with ids 1..30, then exactly one of 32 (checksum OK) or 33 (checksum
ERROR), then the summary event with id 0 last; the order is fixed and
independent of checksum validity, and the summary spans the whole frame
range `[ss, es]`. -/
theorem decode_event_ids_fixed_order (data : List Nat) (ss es : Nat) (h : 114 ≤ data.length) :
    (decode_message data ss es).map FieldEvent.fid
        = [1, 2, 3, 4, 5, 6, 7, 8, 9, 10, 11, 12, 13, 14, 15, 16, 17, 18, 19, 20,
           21, 22, 23, 24, 25, 26, 27, 28, 29, 30,
           if checksum_valid data then 32 else 33, 0]
      ∧ ((decode_message data ss es).getLast?).map (fun ev => (ev.ss, ev.es, ev.fid))
          = some (ss, es, 0) := by
  have hn : ¬ data.length < 114 := by omega
  unfold decode_message
  rw [if_neg hn]
  cases hcv : checksum_valid data <;> simp

theorem decode_event_ids_fixed_order_witness :
    (decode_message (List.replicate 114 0) 0 113).map FieldEvent.fid
        = [1, 2, 3, 4, 5, 6, 7, 8, 9, 10, 11, 12, 13, 14, 15, 16, 17, 18, 19, 20,
           21, 22, 23, 24, 25, 26, 27, 28, 29, 30,
           if checksum_valid (List.replicate 114 0) then 32 else 33, 0]
      ∧ ((decode_message (List.replicate 114 0) 0 113).getLast?).map
            (fun ev => (ev.ss, ev.es, ev.fid))
          = some (0, 113, 0) :=
  decode_event_ids_fixed_order (List.replicate 114 0) 0 113 (by decide)

/-- C6: for every frame of at least 114 bytes, the depth event (id 3)
renders word 2 divided by 10 with one decimal place; with word 2 = 150
its text is exactly "Depth: 15.0m"; and when word 56 equals the XOR-fold
of the first 112 bytes, an id-32 event rendering "Checksum OK" with the
computed value is emitted. -/
theorem depth_and_checksum_render (data : List Nat) (ss es : Nat) (h : 114 ≤ data.length) :
    (⟨ss, es, 3, "Depth: " ++ fmtFixed (wordAt data 2) 10 1 ++ "m"⟩ : FieldEvent)
        ∈ decode_message data ss es
      ∧ (wordAt data 2 = 150 →
          (⟨ss, es, 3, "Depth: 15.0m"⟩ : FieldEvent) ∈ decode_message data ss es)
      ∧ (wordAt data 56 = calc_checksum (data.take 112) →
          (⟨ss, es, 32, "Checksum OK: 0x" ++ hex4 (calc_checksum (data.take 112))⟩ : FieldEvent)
            ∈ decode_message data ss es) := by
  have hn : ¬ data.length < 114 := by omega
  refine ⟨?_, ?_, ?_⟩
  · unfold decode_message
    rw [if_neg hn]
    simp
  · intro h150
    unfold decode_message
    rw [if_neg hn, h150]
    have htxt : "Depth: " ++ fmtFixed 150 10 1 ++ "m" = "Depth: 15.0m" := by decide
    rw [htxt]
    simp
  · intro hok
    have hv : checksum_valid data = true := by
      simp [checksum_valid, received_checksum, calculated_checksum, hok]
    unfold decode_message
    rw [if_neg hn, hv]
    unfold received_checksum
    rw [hok]
    simp

lemma feedAll_append (st : AssemblyState) (xs ys : List (Nat × Nat)) :
    feedAll st (xs ++ ys)
      = ((feedAll (feedAll st xs).1 ys).1,
         (feedAll st xs).2 ++ (feedAll (feedAll st xs).1 ys).2) := by
  induction xs generalizing st with
  | nil => simp [feedAll]
  | cons p rest ih =>
    obtain ⟨b, t⟩ := p
    rcases hf : feed st b t with ⟨st1, fr⟩
    simp [feedAll, hf, ih st1]

lemma expectedFromBuf_append (l l2 : List Nat) (e : Nat) (h : expectedFromBuf l = some e) :
    expectedFromBuf (l ++ l2) = some e := by
  rcases l with _ | ⟨b0, _ | ⟨b1, rest⟩⟩ <;> simp [expectedFromBuf] at h ⊢
  exact h

lemma feedAll_no_complete : ∀ (evs : List (Nat × Nat)),
    (∀ e, expectedFromBuf (evs.map Prod.fst) = some e → e = 0 ∨ evs.length < e) →
    feedAll resetState evs
      = ({ buffer := evs.map Prod.fst,
           expected_length := expectedFromBuf (evs.map Prod.fst),
           start_sample := (evs.head?).map Prod.snd }, []) := by
  intro evs
  induction evs using List.reverseRecOn with
  | nil => intro _; rfl
  | append_singleton xs p ih =>
    intro hnc
    obtain ⟨b, t⟩ := p
    have hxs : ∀ e, expectedFromBuf (xs.map Prod.fst) = some e → e = 0 ∨ xs.length < e := by
      intro e he
      have hfull : expectedFromBuf ((xs ++ [(b, t)]).map Prod.fst) = some e := by
        rw [List.map_append]
        exact expectedFromBuf_append _ _ _ he
      rcases hnc e hfull with h0 | hlt
      · exact Or.inl h0
      · right
        rw [List.length_append] at hlt
        omega
    rw [feedAll_append, ih hxs]
    rcases xs with _ | ⟨⟨a, s⟩, xs'⟩
    · simp [feedAll, feed, expectedFromBuf, resetState]
    rcases xs' with _ | ⟨⟨c, u⟩, xs''⟩
    · have h2 := hnc (a + 256 * b) (by simp [expectedFromBuf])
      simp only [List.length_append, List.length_cons, List.length_nil] at h2
      simp [feedAll, feed, expectedFromBuf, resetState]
      split_ifs with hc
      · exfalso
        rcases h2 with h0 | hlt
        · exact hc.1 (by omega) (by omega)
        · omega
      · constructor <;> rfl
    · have h2 := hnc (a + 256 * c) (by simp [expectedFromBuf])
      simp only [List.length_cons, List.length_append, List.length_nil] at h2
      simp [feedAll, feed, expectedFromBuf, resetState]
      split_ifs with hc
      · exfalso
        rcases h2 with h0 | hlt
        · exact hc.1 (by omega) (by omega)
        · omega
      · constructor <;> rfl

lemma feed_preserves_inv (st : AssemblyState) (b t : Nat) :
    (feed st b t).1.buffer = [] ↔ (feed st b t).1.start_sample = none := by
  obtain ⟨buf, exp, start⟩ := st
  simp only [feed]
  rcases hE : (if exp = none ∧ 2 ≤ (buf ++ [b]).length
      then expectedFromBuf (buf ++ [b]) else exp) with _ | e
  · simp
  · dsimp only
    split_ifs with hc
    · simp [resetState]
    · simp

/-- C9: feeding one byte event appends the byte to the accumulation
buffer, and records the event timestamp as the frame start exactly when
the buffer was previously empty (the hypothesis is the state invariant
that the buffer is empty iff no start sample is stored, which holds in
the reset state and is preserved by every `feed` step, see
`feed_preserves_inv`). -/
theorem feed_appends_and_records_start (st : AssemblyState) (b t : Nat)
    (hinv : st.buffer = [] ↔ st.start_sample = none) :
    bufferAfterAppend (feed st b t) = st.buffer ++ [b]
      ∧ startAfterAppend (feed st b t)
          = if st.buffer = [] then some t else st.start_sample := by
  obtain ⟨buf, exp, start⟩ := st
  simp only [] at hinv
  have hstart : some (start.getD t) = if buf = [] then some t else start := by
    rcases start with _ | s
    · rw [if_pos (hinv.mpr rfl)]
      rfl
    · have hb : buf ≠ [] := fun hbuf => by simpa using hinv.mp hbuf
      rw [if_neg hb]
      rfl
  rw [← hstart]
  simp only [feed]
  rcases hE : (if exp = none ∧ 2 ≤ (buf ++ [b]).length
      then expectedFromBuf (buf ++ [b]) else exp) with _ | e
  · exact ⟨rfl, rfl⟩
  · dsimp only
    split_ifs with hc
    · exact ⟨rfl, rfl⟩
    · exact ⟨rfl, rfl⟩

theorem feed_appends_and_records_start_witness :
    bufferAfterAppend (feed resetState 5 7) = resetState.buffer ++ [5]
      ∧ startAfterAppend (feed resetState 5 7)
          = if resetState.buffer = [] then some 7 else resetState.start_sample :=
  feed_appends_and_records_start resetState 5 7 (by decide)

/-- C10: if the expected length read from the first two buffered bytes is
0, the assembler never completes a frame and never resets: every byte of
the stream just accumulates in the buffer, the expected length stays 0,
and the frames output is empty no matter how many bytes arrive. -/
theorem zero_expected_length_stalls (evs : List (Nat × Nat))
    (h0 : expectedFromBuf (evs.map Prod.fst) = some 0) :
    (feedAll resetState evs).2 = []
      ∧ (feedAll resetState evs).1
          = { buffer := evs.map Prod.fst, expected_length := some 0,
              start_sample := (evs.head?).map Prod.snd } := by
  have hnc : ∀ e, expectedFromBuf (evs.map Prod.fst) = some e → e = 0 ∨ evs.length < e := by
    intro e he
    rw [h0] at he
    exact Or.inl (by injection he with h; omega)
  rw [feedAll_no_complete evs hnc]
  exact ⟨rfl, by rw [h0]⟩

theorem zero_expected_length_stalls_witness :
    (feedAll resetState [(0, 3), (0, 4), (7, 5), (9, 6)]).2 = []
      ∧ (feedAll resetState [(0, 3), (0, 4), (7, 5), (9, 6)]).1
          = { buffer := [(0, 3), (0, 4), (7, 5), (9, 6)].map Prod.fst,
              expected_length := some 0,
              start_sample := ([(0, 3), (0, 4), (7, 5), (9, 6)].head?).map Prod.snd } :=
  zero_expected_length_stalls [(0, 3), (0, 4), (7, 5), (9, 6)] (by decide)

/-- C1 as stated is false: on the stream of two zero bytes the expected
length is fixed to 0 (the little-endian value of the first two bytes) and
the buffer length 2 reaches it, yet no frame is passed to the parser and
the assembler state is not reset (the completion test in pd.py uses the
truthiness of `self.expected_length`, which 0 fails). -/
theorem frame_assembly_as_stated_cx :
    expectedFromBuf [0, 0] = some 0
      ∧ (feedAll resetState [(0, 0), (0, 1)]).1
          = { buffer := [0, 0], expected_length := some 0, start_sample := some 0 }
      ∧ (feedAll resetState [(0, 0), (0, 1)]).2 = [] := by
  decide

/-- C1 (amended to expected lengths of at least 2): for every byte-event
stream whose first two bytes read as a little-endian 16-bit value
`e ≥ 2`, feeding the first `e - 1` events produces no frame, after two
events the expected length is fixed to `e` (when `2 < e`; for `e = 2` the
frame completes at that very event), and feeding the `e`-th event
completes exactly one frame carrying the full buffer with sample range
from the first event to the `e`-th, after which the state is reset. -/
theorem frame_assembly_boundary (evs : List (Nat × Nat)) (e : Nat)
    (hexp : expectedFromBuf (evs.map Prod.fst) = some e)
    (he2 : 2 ≤ e) (hlen : e ≤ evs.length) :
    (feedAll resetState (evs.take (e - 1))).2 = []
      ∧ (2 < e → (feedAll resetState (evs.take 2)).1.expected_length = some e)
      ∧ feedAll resetState (evs.take e)
          = (resetState,
             [⟨(evs.take e).map Prod.fst, (evs.getD 0 (0, 0)).2,
               (evs.getD (e - 1) (0, 0)).2⟩]) := by
  obtain ⟨k, rfl⟩ : ∃ k, e = k + 2 := ⟨e - 2, by omega⟩
  rcases evs with _ | ⟨⟨b0, t0⟩, evs1⟩
  · simp at hlen
  rcases evs1 with _ | ⟨⟨b1, t1⟩, rest⟩
  · simp at hlen
  have hb : b0 + 256 * b1 = k + 2 := by
    simp [expectedFromBuf] at hexp
    exact hexp
  have hlen2 : k ≤ rest.length := by simp at hlen; omega
  rcases k with _ | k'
  · -- e = 2: completion happens at the second byte
    refine ⟨?_, ?_, ?_⟩
    · simp [feedAll, feed, resetState]
    · intro h; omega
    · simp [feedAll, feed, expectedFromBuf, resetState, hb]
  · -- e = k' + 3 ≥ 3
    have hk : k' < rest.length := by omega
    rcases hp : rest.getD k' (0, 0) with ⟨pb, pt⟩
    have hsome : rest[k']? = some (pb, pt) := by
      rw [List.getElem?_eq_getElem hk, ← hp, List.getD_eq_getElem?_getD,
        List.getElem?_eq_getElem hk]
      rfl
    have htake : rest.take (k' + 1) = rest.take k' ++ [(pb, pt)] := by
      rw [List.take_succ, hsome]
      rfl
    have hlentake : (rest.take k').length = k' := by
      rw [List.length_take]
      omega
    have hncA : ∀ f, expectedFromBuf (((b0, t0) :: (b1, t1) :: rest.take k').map Prod.fst) = some f
        → f = 0 ∨ ((b0, t0) :: (b1, t1) :: rest.take k').length < f := by
      intro f hf
      simp [expectedFromBuf] at hf
      right
      simp [hlentake]
      omega
    have hA := feedAll_no_complete ((b0, t0) :: (b1, t1) :: rest.take k') hncA
    have hncB : ∀ f, expectedFromBuf (([(b0, t0), (b1, t1)] : List (Nat × Nat)).map Prod.fst) = some f
        → f = 0 ∨ ([(b0, t0), (b1, t1)] : List (Nat × Nat)).length < f := by
      intro f hf
      simp [expectedFromBuf] at hf
      right
      simp
      omega
    have hB := feedAll_no_complete [(b0, t0), (b1, t1)] hncB
    refine ⟨?_, ?_, ?_⟩
    · have h1 : k' + 1 + 2 - 1 = k' + 2 := by omega
      rw [h1]
      simp only [List.take_succ_cons]
      rw [hA]
    · intro _
      simp only [List.take_succ_cons, List.take_zero]
      rw [hB]
      simp [expectedFromBuf, hb]
    · have h3 : k' + 1 + 2 = k' + 3 := by omega
      have h1 : k' + 1 + 2 - 1 = k' + 2 := by omega
      rw [h3, h1]
      simp only [List.take_succ_cons, List.getD_cons_succ, List.getD_cons_zero]
      rw [htake, hp]
      have hform : (b0, t0) :: (b1, t1) :: (rest.take k' ++ [(pb, pt)])
          = ((b0, t0) :: (b1, t1) :: rest.take k') ++ [(pb, pt)] := by
        simp
      rw [hform, feedAll_append, hA]
      dsimp only
      simp only [feedAll, feed, List.map_cons, expectedFromBuf, List.head?_cons]
      rw [if_neg (by simp)]
      dsimp only
      split_ifs with hc
      · simp
      · exfalso
        apply hc
        refine ⟨by omega, ?_⟩
        simp [hlentake]
        omega

theorem frame_assembly_boundary_witness :
    (feedAll resetState ([(4, 10), (0, 11), (5, 12), (6, 13)].take (4 - 1))).2 = []
      ∧ (2 < 4 →
          (feedAll resetState ([(4, 10), (0, 11), (5, 12), (6, 13)].take 2)).1.expected_length
            = some 4)
      ∧ feedAll resetState ([(4, 10), (0, 11), (5, 12), (6, 13)].take 4)
          = (resetState,
             [⟨([(4, 10), (0, 11), (5, 12), (6, 13)].take 4).map Prod.fst,
               ([(4, 10), (0, 11), (5, 12), (6, 13)].getD 0 (0, 0)).2,
               ([(4, 10), (0, 11), (5, 12), (6, 13)].getD (4 - 1) (0, 0)).2⟩]) :=
  frame_assembly_boundary [(4, 10), (0, 11), (5, 12), (6, 13)] 4 (by decide) (by decide)
    (by decide)

lemma getD_set_ne (l : List Nat) (i j a : Nat) (h : i ≠ j) :
    (l.set i a).getD j 0 = l.getD j 0 := by
  rw [List.getD_eq_getElem?_getD, List.getD_eq_getElem?_getD, List.getElem?_set_ne h]

lemma getD_set_eq (l : List Nat) (i a : Nat) (h : i < l.length) :
    (l.set i a).getD i 0 = a := by
  rw [List.getD_eq_getElem?_getD, List.getElem?_set_eq_of_lt _ h]
  rfl

lemma wordAt_set_ne (data : List Nat) (i v p : Nat) (h1 : i ≠ 2 * p) (h2 : i ≠ 2 * p + 1) :
    wordAt (data.set i v) p = wordAt data p := by
  unfold wordAt
  rw [getD_set_ne _ _ _ _ h1, getD_set_ne _ _ _ _ h2]

lemma wordAt_set_lo (data : List Nat) (q v : Nat) (h : 2 * q < data.length) :
    wordAt (data.set (2 * q) v) q = v + 256 * data.getD (2 * q + 1) 0 := by
  unfold wordAt
  rw [getD_set_eq _ _ _ h, getD_set_ne _ _ _ _ (by omega)]

lemma wordAt_set_hi (data : List Nat) (q v : Nat) (h : 2 * q + 1 < data.length) :
    wordAt (data.set (2 * q + 1) v) q = data.getD (2 * q) 0 + 256 * v := by
  unfold wordAt
  rw [getD_set_ne _ _ _ _ (by omega), getD_set_eq _ _ _ h]

lemma xor_ne_self (b m : Nat) (hm : m ≠ 0) : b ^^^ m ≠ b := by
  intro h
  apply hm
  have h2 := congrArg (fun x => b ^^^ x) h
  simpa [← Nat.xor_assoc] using h2

lemma foldl_xor_update (f : Nat → Nat) (m k : Nat) :
    ∀ n a, k < n →
      (List.range n).foldl (fun acc i => acc ^^^ (if i = k then f i ^^^ m else f i)) a
        = ((List.range n).foldl (fun acc i => acc ^^^ f i) a) ^^^ m := by
  intro n
  induction n with
  | zero => intro a h; omega
  | succ n' ih =>
    intro a hk
    rw [List.range_succ, List.foldl_append, List.foldl_append]
    simp only [List.foldl_cons, List.foldl_nil]
    rcases Nat.lt_or_ge k n' with h | h
    · rw [ih a h]
      rw [if_neg (by omega)]
      rw [Nat.xor_assoc, Nat.xor_assoc, Nat.xor_comm m (f n')]
    · have hk' : k = n' := by omega
      subst hk'
      rw [if_pos rfl]
      have hcong : (List.range k).foldl
            (fun acc i => acc ^^^ (if i = k then f i ^^^ m else f i)) a
          = (List.range k).foldl (fun acc i => acc ^^^ f i) a := by
        refine foldl_xor_congr _ _ _ (fun i hi => ?_) a
        rw [List.mem_range] at hi
        rw [if_neg (by omega)]
      rw [hcong, ← Nat.xor_assoc]

lemma checksum_flip_invalid (data : List Nat) (hlen : data.length = 114)
    (hck : wordAt data 56 = calc_checksum (data.take 112))
    (i j : Nat) (hi : i < 112) (hj : j < 8) :
    checksum_valid (data.set i (data.getD i 0 ^^^ 2 ^ j)) = false := by
  have hq : i / 2 < 56 := by omega
  have hiq : i = 2 * (i / 2) ∨ i = 2 * (i / 2) + 1 := by omega
  have hpow : (2 : Nat) ^ j ≠ 0 := (Nat.pos_pow_of_pos j (by norm_num)).ne'
  have hbne : data.getD i 0 ^^^ 2 ^ j ≠ data.getD i 0 := xor_ne_self _ _ hpow
  have hwne : wordAt (data.set i (data.getD i 0 ^^^ 2 ^ j)) (i / 2) ≠ wordAt data (i / 2) := by
    rcases hiq with heq | hodd
    · have h2q : 2 * (i / 2) < data.length := by omega
      have hlo := wordAt_set_lo data (i / 2) (data.getD i 0 ^^^ 2 ^ j) h2q
      rw [← heq] at hlo
      have hwq : wordAt data (i / 2) = data.getD i 0 + 256 * data.getD (i + 1) 0 := by
        unfold wordAt
        rw [← heq]
      rw [hlo, hwq]
      omega
    · have h2q : 2 * (i / 2) + 1 < data.length := by omega
      have hhi := wordAt_set_hi data (i / 2) (data.getD i 0 ^^^ 2 ^ j) h2q
      rw [← hodd] at hhi
      have hwq : wordAt data (i / 2) = data.getD (2 * (i / 2)) 0 + 256 * data.getD i 0 := by
        unfold wordAt
        rw [← hodd]
      rw [hhi, hwq]
      omega
  have hwother : ∀ p, p ≠ i / 2 →
      wordAt (data.set i (data.getD i 0 ^^^ 2 ^ j)) p = wordAt data p := by
    intro p hp
    exact wordAt_set_ne data i _ p (by omega) (by omega)
  have hlen' : (data.set i (data.getD i 0 ^^^ 2 ^ j)).length = 114 := by
    rw [List.length_set, hlen]
  have step1 : (List.range 56).foldl
        (fun acc p => acc ^^^ wordAt (data.set i (data.getD i 0 ^^^ 2 ^ j)) p) 0
      = (List.range 56).foldl
          (fun acc p => acc ^^^ (if p = i / 2
            then wordAt data p ^^^ (wordAt data (i / 2)
              ^^^ wordAt (data.set i (data.getD i 0 ^^^ 2 ^ j)) (i / 2))
            else wordAt data p)) 0 := by
    refine foldl_xor_congr _ _ _ (fun p hp => ?_) 0
    by_cases hpq : p = i / 2
    · subst hpq
      rw [if_pos rfl, Nat.xor_cancel_left]
    · rw [if_neg hpq, hwother p hpq]
  have step2 : (List.range 56).foldl
        (fun acc p => acc ^^^ (if p = i / 2
          then wordAt data p ^^^ (wordAt data (i / 2)
            ^^^ wordAt (data.set i (data.getD i 0 ^^^ 2 ^ j)) (i / 2))
          else wordAt data p)) 0
      = ((List.range 56).foldl (fun acc p => acc ^^^ wordAt data p) 0)
          ^^^ (wordAt data (i / 2)
            ^^^ wordAt (data.set i (data.getD i 0 ^^^ 2 ^ j)) (i / 2)) :=
    foldl_xor_update (wordAt data) _ (i / 2) 56 0 hq
  have hM : wordAt data (i / 2) ^^^ wordAt (data.set i (data.getD i 0 ^^^ 2 ^ j)) (i / 2) ≠ 0 := by
    rw [Ne, Nat.xor_eq_zero]
    exact fun hEq => hwne hEq.symm
  have hcalc' : calculated_checksum (data.set i (data.getD i 0 ^^^ 2 ^ j))
      = calculated_checksum data
          ^^^ (wordAt data (i / 2)
            ^^^ wordAt (data.set i (data.getD i 0 ^^^ 2 ^ j)) (i / 2)) := by
    unfold calculated_checksum
    rw [calc_checksum_take_112 _ (by omega), calc_checksum_take_112 _ (by omega)]
    exact step1.trans step2
  have hrecv : received_checksum (data.set i (data.getD i 0 ^^^ 2 ^ j))
      = received_checksum data := by
    unfold received_checksum
    exact wordAt_set_ne data i _ 56 (by omega) (by omega)
  have hne2 : received_checksum (data.set i (data.getD i 0 ^^^ 2 ^ j))
      ≠ calculated_checksum (data.set i (data.getD i 0 ^^^ 2 ^ j)) := by
    rw [hrecv, hcalc']
    unfold received_checksum calculated_checksum
    rw [hck]
    exact (xor_ne_self _ _ hM).symm
  simp only [checksum_valid]
  exact beq_eq_false_iff_ne.mpr hne2

/-- C3: a 114-byte frame whose word 56 equals the XOR-fold of its first
112 bytes validates as OK, and flipping any single bit of any of bytes
0..111 (without recomputing the checksum word) makes validation report
invalid. -/
theorem checksum_detects_bit_flip (data : List Nat) (hlen : data.length = 114)
    (hck : wordAt data 56 = calc_checksum (data.take 112)) :
    checksum_valid data = true
      ∧ ∀ i, i < 112 → ∀ j, j < 8 →
          checksum_valid (data.set i (data.getD i 0 ^^^ 2 ^ j)) = false := by
  constructor
  · simp [checksum_valid, received_checksum, calculated_checksum, hck]
  · intro i hi j hj
    exact checksum_flip_invalid data hlen hck i j hi hj

theorem checksum_detects_bit_flip_witness :
    checksum_valid (List.replicate 114 0) = true
      ∧ checksum_valid ((List.replicate 114 0).set 5
          ((List.replicate 114 0).getD 5 0 ^^^ 2 ^ 3)) = false :=
  ⟨(checksum_detects_bit_flip (List.replicate 114 0) (by decide) (by decide)).1,
   (checksum_detects_bit_flip (List.replicate 114 0) (by decide) (by decide)).2
     5 (by decide) 3 (by decide)⟩

theorem depth_and_checksum_render_witness :
    (⟨0, 113, 3, "Depth: 15.0m"⟩ : FieldEvent) ∈ decode_message mercExample 0 113
      ∧ (⟨0, 113, 32,
            "Checksum OK: 0x" ++ hex4 (calc_checksum (mercExample.take 112))⟩ : FieldEvent)
          ∈ decode_message mercExample 0 113 :=
  ⟨(depth_and_checksum_render mercExample 0 113 (by decide)).2.1 (by decide),
   (depth_and_checksum_render mercExample 0 113 (by decide)).2.2 (by decide)⟩
